import Mathlib

/-!
Verification of the catalog aggregate of grusterylist.

The definitions below are a shallow embedding of `src/src/groceries.rs`
(struct `Groceries` and its methods). Rust `Vec` becomes `List`, the
newtype wrappers `GroceriesItemName`, `GroceriesItemSection` and `Recipe`
are transparent single-field strings and become `String`, `&mut self`
methods become functions returning the error value of the method together
with the updated catalog, and `Iterator::position` / `Vec::remove` are
embedded as the structurally recursive `position` / `removeAt`.
-/

/-- Error type of the repository. Modelled from the spec: the full `ReadError`
enum (with the `ItemNotFound` and `EmptyInput` variants that groceries.rs
names) is not under src/ — src/src/lib.rs holds an older revision with only
the two persistence variants. Variants follow the error taxonomy of spec
section 7; payloads of the persistence variants are irrelevant to every claim
and are omitted. -/
inductive ReadError where
  | DeserializingError : ReadError
  | PathError : ReadError
  | ItemNotFound : ReadError
  | EmptyInput : ReadError
deriving DecidableEq, Repr

/-- Item record, from the `GroceriesItem` struct used by src/src/groceries.rs
(fields as in the serialized form: name, section, is_recipe_ingredient,
recipes). -/
structure GroceriesItem where
  name : String
  «section» : String
  is_recipe_ingredient : Bool
  recipes : List String
deriving DecidableEq, Repr

/-- The catalog aggregate, from `struct Groceries` (groceries.rs lines 6-11). -/
structure Groceries where
  sections : List String
  collection : List GroceriesItem
  recipes : List String
deriving DecidableEq, Repr

/-- Embedding of `Iterator::position`: index of the first element satisfying
`p`, if any. -/
def position {α : Type} (p : α → Bool) : List α → Option Nat
  | [] => none
  | x :: xs => if p x then some 0 else (position p xs).map (· + 1)

/-- Embedding of `Vec::remove i` (in-bounds use only): drop the element at
index `i`. -/
def removeAt {α : Type} : List α → Nat → List α
  | [], _ => []
  | _ :: xs, 0 => xs
  | x :: xs, n + 1 => x :: removeAt xs n

/-- Matching test of a pattern against the front of a character list. -/
def leadMatch : List Char → List Char → Bool
  | [], _ => true
  | _ :: _, [] => false
  | a :: as, b :: bs => a == b && leadMatch as bs

/-- Occurrence of `pat` as a contiguous run inside the second list. -/
def occursIn (pat : List Char) : List Char → Bool
  | [] => leadMatch pat []
  | b :: bs => leadMatch pat (b :: bs) || occursIn pat bs

/-- Embedding of Rust `str::contains`: `pat` occurs as a substring of `s`. -/
def strContains (s pat : String) : Bool := occursIn pat.data s.data

/-- Split a character list at every comma (embedding of the split on commas
in the parser contract). -/
def splitOnComma : List Char → List (List Char)
  | [] => [[]]
  | c :: rest =>
      if c = ',' then [] :: splitOnComma rest
      else
        match splitOnComma rest with
        | [] => [[c]]
        | w :: ws => (c :: w) :: ws

/-- Drop leading and trailing whitespace from a character list (embedding of
`str::trim`). -/
def trimChars (cs : List Char) : List Char :=
  ((cs.dropWhile fun c => c.isWhitespace).reverse.dropWhile fun c => c.isWhitespace).reverse

/-- Collapse duplicates to their first occurrence, preserving order. -/
def dedupFirst (l : List String) : List String :=
  l.foldl (fun acc s => if s ∈ acc then acc else acc ++ [s]) []

/-- Normalization of a free-text ingredient string: split on commas, trim and
lower-case each phrase, drop blank phrases, collapse duplicates to their first
occurrence. Defined structurally on the character data so that it evaluates
inside the kernel. -/
def normalizeText (input : String) : List String :=
  dedupFirst
    (((splitOnComma input.data).map
        (fun w => String.mk ((trimChars w).map Char.toLower))).filter
      (fun s => s ≠ ""))

/-- Modelled from the spec: `Ingredients::from_input_string` is called by
src/src/groceries.rs but its definition is not under src/. Spec section 4.1:
the input is a comma-separated string; each phrase is trimmed and lower-cased;
duplicates are collapsed to their first occurrence; the call fails with
`EmptyInput` if the normalized result is an empty sequence. -/
def Ingredients.from_input_string (input : String) : Except ReadError (List String) :=
  let ings := normalizeText input
  if ings.isEmpty then Except.error ReadError.EmptyInput else Except.ok ings

/-- Modelled from the spec: `GroceriesItem::new_initialized` is called by
groceries.rs line 116 but not defined under src/. Spec section 4.2: a fresh
item carries the chosen section, `is_recipe_ingredient = false` and an empty
recipes list. -/
def GroceriesItem.new_initialized (name sec : String) : GroceriesItem :=
  { name := name, «section» := sec, is_recipe_ingredient := false, recipes := [] }

/-- Embedding of `Groceries::add_item` (groceries.rs lines 30-32). -/
def Groceries.add_item (g : Groceries) (item : GroceriesItem) : Groceries :=
  { g with collection := g.collection ++ [item] }

/-- Embedding of `Groceries::delete_item` (groceries.rs lines 34-44). The
source pattern-matches the `ok_or(ItemNotFound)` result with `if let Ok(i)`,
so on the none branch the error value is discarded and the function returns
`Ok(())` either way. -/
def Groceries.delete_item (g : Groceries) (name : String) :
    Except ReadError Unit × Groceries :=
  match position (fun x => x.name == name) g.collection with
  | some i => (Except.ok (), { g with collection := removeAt g.collection i })
  | none => (Except.ok (), g)

/-- Embedding of `Groceries::items` (groceries.rs lines 51-60): for every
section in order, every item of the collection whose section string contains
the section name as a substring. -/
def Groceries.items (g : Groceries) : List GroceriesItem :=
  g.sections.flatMap
    (fun sec => g.collection.filter (fun x => strContains x.«section» sec))

/-- Body of the `iter_mut().filter(...).for_each(...)` loop of
`Groceries::add_recipe` (groceries.rs lines 129-137): a matched item gets
`is_recipe_ingredient` set and the recipe name pushed; others are unchanged. -/
def add_recipe_item (recipe : String) (ings : List String) (x : GroceriesItem) :
    GroceriesItem :=
  if ings.contains x.name then
    { x with is_recipe_ingredient := true, recipes := x.recipes ++ [recipe] }
  else x

/-- Embedding of `Groceries::add_recipe` (groceries.rs lines 124-142). -/
def Groceries.add_recipe (g : Groceries) (name : String) (ingredients : String) :
    Except ReadError Unit × Groceries :=
  match Ingredients.from_input_string ingredients with
  | Except.error e => (Except.error e, g)
  | Except.ok ings =>
      (Except.ok (),
        { g with
            collection := g.collection.map (add_recipe_item name ings),
            recipes := g.recipes ++ [name] })

/-- Body of the cascade loop of `Groceries::delete_recipe` (groceries.rs lines
153-160): remove the first occurrence of the recipe name from the item, and if
the list becomes empty, clear the flag. -/
def delete_recipe_item (name : String) (item : GroceriesItem) : GroceriesItem :=
  match position (fun x => x == name) item.recipes with
  | some i =>
      let r := removeAt item.recipes i
      { item with
          recipes := r,
          is_recipe_ingredient := if r.isEmpty then false else item.is_recipe_ingredient }
  | none => item

/-- Embedding of `Groceries::delete_recipe` (groceries.rs lines 144-162). As
in `delete_item`, the `ok_or(ItemNotFound)` result is matched with
`if let Ok(i)`, so a missing name is silently skipped and the cascade over the
collection runs regardless; the function returns `Ok(())` on every path. -/
def Groceries.delete_recipe (g : Groceries) (name : String) :
    Except ReadError Unit × Groceries :=
  let rs := match position (fun x => x == name) g.recipes with
    | some i => removeAt g.recipes i
    | none => g.recipes
  (Except.ok (),
    { g with recipes := rs, collection := g.collection.map (delete_recipe_item name) })

/-- Embedding of `Groceries::check_recipe_ingredients` (groceries.rs lines
67-122). The interactive section-selection loop (lines 72-113) blocks until
the user picks one of the five recognized options; it is abstracted as an
injected `prompt` function returning the chosen section string for an
ingredient name, which is the loop value once it terminates. -/
def Groceries.check_recipe_ingredients (prompt : String → String) (g : Groceries)
    (ingredients : String) : Except ReadError Unit × Groceries :=
  match Ingredients.from_input_string ingredients with
  | Except.error e => (Except.error e, g)
  | Except.ok ings =>
      (Except.ok (),
        ings.foldl
          (fun acc ing =>
            if acc.collection.all (fun x => x.name != ing) then
              acc.add_item (GroceriesItem.new_initialized ing (prompt ing))
            else acc)
          g)

/-- Invariant I3 of the spec: the flag is set exactly on items linked to at
least one recipe. -/
abbrev invariantI3 (g : Groceries) : Prop :=
  ∀ x ∈ g.collection, (x.is_recipe_ingredient = true ↔ x.recipes ≠ [])

theorem position_eq_none {α : Type} {p : α → Bool} :
    ∀ {l : List α}, (∀ x ∈ l, p x = false) → position p l = none
  | [], _ => rfl
  | a :: l, h => by
      have ha : p a = false := h a (List.mem_cons_self a l)
      have hl : position p l = none :=
        position_eq_none (fun x hx => h x (List.mem_cons_of_mem a hx))
      simp [position, ha, hl]

theorem position_spec {α : Type} {p : α → Bool} :
    ∀ {l : List α}, (∃ x ∈ l, p x = true) →
      ∃ (pre : List α) (x : α) (post : List α),
        l = pre ++ x :: post ∧ p x = true ∧ (∀ y ∈ pre, p y = false) ∧
        position p l = some pre.length ∧ removeAt l pre.length = pre ++ post
  | [], h => absurd h (by simp)
  | a :: l, h => by
      by_cases ha : p a = true
      · exact ⟨[], a, l, rfl, ha, by simp, by simp [position, ha], rfl⟩
      · have ha2 : p a = false := by simpa using ha
        have hl : ∃ x ∈ l, p x = true := by
          rcases h with ⟨x, hx, hpx⟩
          rcases List.mem_cons.mp hx with rfl | hx2
          · exact absurd hpx ha
          · exact ⟨x, hx2, hpx⟩
        rcases position_spec hl with ⟨pre, x, post, heq, hpx, hpre, hpos, hrem⟩
        refine ⟨a :: pre, x, post, by simp [heq], hpx, ?_, ?_, ?_⟩
        · intro y hy
          rcases List.mem_cons.mp hy with rfl | hy2
          · exact ha2
          · exact hpre y hy2
        · simp [position, ha2, hpos]
        · simp only [List.length_cons, removeAt, hrem, List.cons_append]

theorem positionRemove_eq_erase (R : String) :
    ∀ l : List String,
      (match position (fun x => x == R) l with
        | some i => removeAt l i
        | none => l) = l.erase R
  | [] => rfl
  | a :: l => by
      rw [List.erase_cons]
      by_cases ha : (a == R) = true
      · simp [position, ha, removeAt]
      · have ha2 : (a == R) = false := by simpa using ha
        have ih := positionRemove_eq_erase R l
        simp only [position, ha2, Bool.false_eq_true, if_false, ha]
        cases hpos : position (fun x => x == R) l with
        | none =>
            rw [hpos] at ih
            show a :: l = a :: l.erase R
            exact congrArg (List.cons a) ih
        | some i =>
            rw [hpos] at ih
            show a :: removeAt l i = a :: l.erase R
            exact congrArg (List.cons a) ih

/-- Sample item from the spec scenario in section 8: eggs linked to one
recipe. -/
def itemEggs : GroceriesItem :=
  { name := "eggs", «section» := "dairy", is_recipe_ingredient := true,
    recipes := ["oatmeal cookies"] }

/-- Sample catalog holding `itemEggs`. -/
def gEggs : Groceries :=
  { sections := ["fresh", "dairy"], collection := [itemEggs],
    recipes := ["oatmeal cookies"] }

/-- Sample item carrying a duplicated recipe back-reference. -/
def itemRR : GroceriesItem :=
  { name := "x", «section» := "fresh", is_recipe_ingredient := true,
    recipes := ["r", "r"] }

/-- Sample catalog holding `itemRR`. -/
def gRR : Groceries :=
  { sections := [], collection := [itemRR], recipes := ["r"] }

/-- Sample item not yet linked to any recipe. -/
def itemX : GroceriesItem :=
  { name := "x", «section» := "fresh", is_recipe_ingredient := false, recipes := [] }

/-- Sample catalog holding `itemX`. -/
def gX : Groceries :=
  { sections := [], collection := [itemX], recipes := [] }

/-- C1 counterexample: on a catalog with no item at all, `delete_item` of the
absent name "eggs" returns `Ok(())`, not the `ItemNotFound` failure the claim
asserts. -/
theorem claim1_counterexample :
    (Groceries.delete_item { sections := [], collection := [], recipes := [] } "eggs").1
        = Except.ok () ∧
      (Except.ok () : Except ReadError Unit) ≠ Except.error ReadError.ItemNotFound :=
  ⟨rfl, by simp⟩

/-- C1 (amended): for every catalog C and name N matched by no item,
`delete_item` leaves C unchanged and returns success; the internally
constructed `ItemNotFound` value is discarded, never surfaced. -/
theorem claim1_delete_item_absent (g : Groceries) (N : String)
    (h : ∀ x ∈ g.collection, x.name ≠ N) :
    g.delete_item N = (Except.ok (), g) := by
  have hpos : position (fun x : GroceriesItem => x.name == N) g.collection = none :=
    position_eq_none (fun x hx => by simpa using h x hx)
  simp [Groceries.delete_item, hpos]

/-- Witness for C1 at the empty catalog. -/
theorem claim1_delete_item_absent_witness :
    Groceries.delete_item { sections := [], collection := [], recipes := [] } "eggs"
      = (Except.ok (), { sections := [], collection := [], recipes := [] }) :=
  claim1_delete_item_absent _ "eggs" (fun x hx => absurd hx (List.not_mem_nil x))

/-- C4 counterexample: on a catalog with an empty recipe list, `delete_recipe`
of the absent name "r" returns `Ok(())`, not the `ItemNotFound` failure the
claim asserts. -/
theorem claim4_counterexample :
    (Groceries.delete_recipe { sections := [], collection := [], recipes := [] } "r").1
        = Except.ok () ∧
      (Except.ok () : Except ReadError Unit) ≠ Except.error ReadError.ItemNotFound :=
  ⟨rfl, by simp⟩

/-- C4 (amended): for every catalog C and name R absent from the recipe list,
`delete_recipe` returns success and leaves the recipe list and the sections
unchanged (the back-reference cascade over items still runs); the internally
constructed `ItemNotFound` value is discarded, never surfaced. -/
theorem claim4_delete_recipe_absent (g : Groceries) (R : String) (h : R ∉ g.recipes) :
    (g.delete_recipe R).1 = Except.ok () ∧
    (g.delete_recipe R).2.recipes = g.recipes ∧
    (g.delete_recipe R).2.sections = g.sections := by
  have hpos : position (fun x => x == R) g.recipes = none :=
    position_eq_none (fun x hx => by
      rw [beq_eq_false_iff_ne]
      rintro rfl
      exact h hx)
  exact ⟨rfl, by simp [Groceries.delete_recipe, hpos], rfl⟩

/-- Witness for C4 at `gEggs` and a name not in its recipe list. -/
theorem claim4_delete_recipe_absent_witness :
    (gEggs.delete_recipe "pasta").1 = Except.ok () ∧
    (gEggs.delete_recipe "pasta").2.recipes = gEggs.recipes ∧
    (gEggs.delete_recipe "pasta").2.sections = gEggs.sections :=
  claim4_delete_recipe_absent gEggs "pasta" (by decide)

/-- C5: for every catalog C and name N of some item of C, `delete_item`
removes exactly the first item whose name equals N — the collection splits as
pre ++ x :: post with x the first match — and the result keeps every other
item as well as the sections and the recipe list unchanged. -/
theorem claim5_delete_item_present (g : Groceries) (N : String)
    (h : ∃ x ∈ g.collection, x.name = N) :
    ∃ (pre : List GroceriesItem) (x : GroceriesItem) (post : List GroceriesItem),
      g.collection = pre ++ x :: post ∧ x.name = N ∧ (∀ y ∈ pre, y.name ≠ N) ∧
      g.delete_item N = (Except.ok (), { g with collection := pre ++ post }) := by
  have h2 : ∃ x ∈ g.collection, (fun x : GroceriesItem => x.name == N) x = true := by
    rcases h with ⟨x, hx, hxn⟩
    exact ⟨x, hx, by simp [hxn]⟩
  rcases position_spec h2 with ⟨pre, x, post, heq, hpx, hpre, hpos, hrem⟩
  refine ⟨pre, x, post, heq, by simpa using hpx, ?_, ?_⟩
  · intro y hy
    have hf := hpre y hy
    simpa using hf
  · simp [Groceries.delete_item, hpos, hrem]

/-- Witness for C5 at `gEggs`. -/
theorem claim5_delete_item_present_witness :
    ∃ (pre : List GroceriesItem) (x : GroceriesItem) (post : List GroceriesItem),
      gEggs.collection = pre ++ x :: post ∧ x.name = "eggs" ∧
      (∀ y ∈ pre, y.name ≠ "eggs") ∧
      gEggs.delete_item "eggs" = (Except.ok (), { gEggs with collection := pre ++ post }) :=
  claim5_delete_item_present gEggs "eggs" ⟨itemEggs, by decide, rfl⟩

theorem position_eq_none_iff {α : Type} {p : α → Bool} :
    ∀ {l : List α}, position p l = none ↔ ∀ x ∈ l, p x = false
  | [] => by simp [position]
  | a :: l => by
      by_cases ha : p a = true
      · simp [position, ha]
      · have ha2 : p a = false := by simpa using ha
        simp [position, ha2, Option.map_eq_none', position_eq_none_iff (l := l)]

theorem delete_recipe_item_recipes (R : String) (x : GroceriesItem) :
    (delete_recipe_item R x).recipes = x.recipes.erase R := by
  unfold delete_recipe_item
  have her := positionRemove_eq_erase R x.recipes
  cases hpos : position (fun s => s == R) x.recipes with
  | none =>
      rw [hpos] at her
      exact her
  | some i =>
      rw [hpos] at her
      exact her

theorem delete_recipe_item_eq (R : String) (x : GroceriesItem) :
    delete_recipe_item R x =
      if R ∈ x.recipes then
        { x with
            recipes := x.recipes.erase R,
            is_recipe_ingredient :=
              if (x.recipes.erase R).isEmpty then false else x.is_recipe_ingredient }
      else x := by
  by_cases hmem : R ∈ x.recipes
  · unfold delete_recipe_item
    cases hpos : position (fun s => s == R) x.recipes with
    | none =>
        rw [position_eq_none_iff] at hpos
        have hfalse := hpos R hmem
        simp at hfalse
    | some i =>
        have her := positionRemove_eq_erase R x.recipes
        rw [hpos] at her
        rw [if_pos hmem, ← her]
  · have hpos : position (fun s => s == R) x.recipes = none :=
      position_eq_none (fun s hs => by
        rw [beq_eq_false_iff_ne]
        rintro rfl
        exact hmem hs)
    simp [delete_recipe_item, hpos, hmem]

theorem delete_recipe_recipes_eq (g : Groceries) (R : String) :
    (g.delete_recipe R).2.recipes = g.recipes.erase R :=
  positionRemove_eq_erase R g.recipes

theorem delete_recipe_collection_eq (g : Groceries) (R : String) :
    (g.delete_recipe R).2.collection = g.collection.map (delete_recipe_item R) := rfl

/-- C2 counterexample: with the recipe name "r" listed twice, `delete_recipe`
removes only the first entry, so "r" is still present afterwards, against the
claim that R is absent for every catalog with R present. -/
theorem claim2_counterexample :
    "r" ∈ (Groceries.delete_recipe
        { sections := [], collection := [], recipes := ["r", "r"] } "r").2.recipes := by
  decide

/-- C2 (amended): for every catalog C and recipe name R present in the recipe
list, provided R occurs at most once there and at most once in each item
(delete_recipe removes only first occurrences), after `delete_recipe`: R is
absent from the recipe list, no item of the result carries R, and every item
whose recipes became empty by the cascade has the flag cleared. -/
theorem claim2_delete_recipe_cascade (g : Groceries) (R : String)
    (_hmem : R ∈ g.recipes)
    (hrec : g.recipes.count R ≤ 1)
    (hitem : ∀ x ∈ g.collection, x.recipes.count R ≤ 1) :
    R ∉ (g.delete_recipe R).2.recipes ∧
    (∀ x ∈ (g.delete_recipe R).2.collection, R ∉ x.recipes) ∧
    (∀ x ∈ g.collection, x.recipes ≠ [] → (delete_recipe_item R x).recipes = [] →
      (delete_recipe_item R x).is_recipe_ingredient = false) ∧
    (g.delete_recipe R).2.collection = g.collection.map (delete_recipe_item R) := by
  refine ⟨?_, ?_, ?_, rfl⟩
  · rw [delete_recipe_recipes_eq, ← List.count_eq_zero]
    have hc := List.count_erase_self R g.recipes
    omega
  · intro x hx
    rw [delete_recipe_collection_eq] at hx
    rcases List.mem_map.mp hx with ⟨y, hy, rfl⟩
    rw [← List.count_eq_zero, delete_recipe_item_recipes]
    have h1 := List.count_erase_self R y.recipes
    have h2 := hitem y hy
    omega
  · intro x _ hne hempty
    by_cases hmem2 : R ∈ x.recipes
    · rw [delete_recipe_item_eq, if_pos hmem2] at hempty ⊢
      have hempty2 : x.recipes.erase R = [] := hempty
      show (if (x.recipes.erase R).isEmpty then false else x.is_recipe_ingredient) = false
      rw [hempty2]
      rfl
    · rw [delete_recipe_item_eq, if_neg hmem2] at hempty
      exact absurd hempty hne

/-- Witness for C2 at `gEggs`, replaying the spec scenario: deleting
"oatmeal cookies" unlinks eggs and clears its flag. -/
theorem claim2_delete_recipe_cascade_witness :
    "oatmeal cookies" ∉ (gEggs.delete_recipe "oatmeal cookies").2.recipes ∧
    (∀ x ∈ (gEggs.delete_recipe "oatmeal cookies").2.collection,
      "oatmeal cookies" ∉ x.recipes) ∧
    (∀ x ∈ gEggs.collection, x.recipes ≠ [] →
      (delete_recipe_item "oatmeal cookies" x).recipes = [] →
      (delete_recipe_item "oatmeal cookies" x).is_recipe_ingredient = false) ∧
    (gEggs.delete_recipe "oatmeal cookies").2.collection
      = gEggs.collection.map (delete_recipe_item "oatmeal cookies") :=
  claim2_delete_recipe_cascade gEggs "oatmeal cookies" (by decide) (by decide) (by decide)

/-- C10: the `delete_recipe` cascade applies `delete_recipe_item` to every
item; per item it erases exactly the first occurrence of the recipe name, so
when the name occurs at least twice the count drops by exactly one, at least
one occurrence survives, and the flag is left untouched (in particular it
stays true when it was true). -/
theorem claim10_cascade_first_occurrence (g : Groceries) (R : String) :
    (g.delete_recipe R).2.collection = g.collection.map (delete_recipe_item R) ∧
    (∀ x : GroceriesItem, (delete_recipe_item R x).recipes = x.recipes.erase R) ∧
    (∀ x : GroceriesItem, 2 ≤ x.recipes.count R →
      (delete_recipe_item R x).recipes.count R = x.recipes.count R - 1 ∧
      1 ≤ (delete_recipe_item R x).recipes.count R ∧
      (delete_recipe_item R x).is_recipe_ingredient = x.is_recipe_ingredient) := by
  refine ⟨rfl, fun x => delete_recipe_item_recipes R x, ?_⟩
  intro x hcount
  have hrec := delete_recipe_item_recipes R x
  have hcnt : (x.recipes.erase R).count R = x.recipes.count R - 1 :=
    List.count_erase_self R x.recipes
  have hge : 1 ≤ (delete_recipe_item R x).recipes.count R := by
    rw [hrec, hcnt]
    omega
  refine ⟨by rw [hrec, hcnt], hge, ?_⟩
  have hmem : R ∈ x.recipes := by
    by_contra hn
    have h0 : x.recipes.count R = 0 := List.count_eq_zero.mpr hn
    omega
  have hne2 : (x.recipes.erase R).isEmpty = false := by
    cases hl : x.recipes.erase R with
    | nil =>
        rw [hl] at hcnt
        exfalso
        simp at hcnt
        omega
    | cons a t => rfl
  rw [delete_recipe_item_eq, if_pos hmem]
  simp [hne2]

/-- Witness for C10 at `gRR`, whose item carries the back-reference "r"
twice. -/
theorem claim10_cascade_first_occurrence_witness :
    (delete_recipe_item "r" itemRR).recipes.count "r" = itemRR.recipes.count "r" - 1 ∧
    1 ≤ (delete_recipe_item "r" itemRR).recipes.count "r" ∧
    (delete_recipe_item "r" itemRR).is_recipe_ingredient = itemRR.is_recipe_ingredient :=
  (claim10_cascade_first_occurrence gRR "r").2.2 itemRR (by decide)

/-- C3: after a successful `add_recipe`, every item whose name is among the
parsed identifiers carries the recipe name in its back-references with the
flag set, and the recipe name is appended to the recipe list unconditionally —
no matter whether any item matched or the name was already listed. -/
theorem claim3_add_recipe_links (g : Groceries) (R T : String) (ings : List String)
    (h : Ingredients.from_input_string T = Except.ok ings) :
    (g.add_recipe R T).1 = Except.ok () ∧
    (g.add_recipe R T).2.recipes = g.recipes ++ [R] ∧
    (g.add_recipe R T).2.collection = g.collection.map (add_recipe_item R ings) ∧
    (∀ x ∈ g.collection, x.name ∈ ings →
      R ∈ (add_recipe_item R ings x).recipes ∧
      (add_recipe_item R ings x).is_recipe_ingredient = true) := by
  refine ⟨?_, ?_, ?_, ?_⟩
  · simp [Groceries.add_recipe, h]
  · simp [Groceries.add_recipe, h]
  · simp [Groceries.add_recipe, h]
  · intro x _ hname
    exact ⟨by simp [add_recipe_item, hname], by simp [add_recipe_item, hname]⟩

/-- Witness for C3 at `gX` with ingredient text "x". -/
theorem claim3_add_recipe_links_witness :
    (gX.add_recipe "r" "x").1 = Except.ok () ∧
    (gX.add_recipe "r" "x").2.recipes = gX.recipes ++ ["r"] ∧
    (gX.add_recipe "r" "x").2.collection = gX.collection.map (add_recipe_item "r" ["x"]) ∧
    (∀ x ∈ gX.collection, x.name ∈ ["x"] →
      "r" ∈ (add_recipe_item "r" ["x"] x).recipes ∧
      (add_recipe_item "r" ["x"] x).is_recipe_ingredient = true) :=
  claim3_add_recipe_links gX "r" "x" ["x"] rfl

/-- C7: ingredient text normalizing to the empty sequence makes both
`add_recipe` and `check_recipe_ingredients` fail with `EmptyInput` and leave
the catalog untouched — parsing happens before any field is mutated. -/
theorem claim7_empty_input (g : Groceries) (R T : String) (prompt : String → String)
    (h : normalizeText T = []) :
    g.add_recipe R T = (Except.error ReadError.EmptyInput, g) ∧
    g.check_recipe_ingredients prompt T = (Except.error ReadError.EmptyInput, g) := by
  have hp : Ingredients.from_input_string T = Except.error ReadError.EmptyInput := by
    simp [Ingredients.from_input_string, h]
  constructor
  · simp [Groceries.add_recipe, hp]
  · simp [Groceries.check_recipe_ingredients, hp]

/-- Witness for C7 at `gEggs` with whitespace-and-comma text. -/
theorem claim7_empty_input_witness :
    gEggs.add_recipe "stew" " , " = (Except.error ReadError.EmptyInput, gEggs) ∧
    gEggs.check_recipe_ingredients (fun _ => "fresh") " , "
      = (Except.error ReadError.EmptyInput, gEggs) :=
  claim7_empty_input gEggs "stew" " , " (fun _ => "fresh") rfl

/-- C8: invariant I3 (flag set iff the recipes list is non-empty) is preserved
by every successful `add_recipe` and by every successful `delete_recipe`. -/
theorem claim8_invariant_I3_preserved (g g1 g2 : Groceries) (R T R2 : String)
    (hI : invariantI3 g)
    (h1 : g.add_recipe R T = (Except.ok (), g1))
    (h2 : g.delete_recipe R2 = (Except.ok (), g2)) :
    invariantI3 g1 ∧ invariantI3 g2 := by
  constructor
  · cases heq : Ingredients.from_input_string T with
    | error e =>
        have hbad : g.add_recipe R T = (Except.error e, g) := by
          simp [Groceries.add_recipe, heq]
        rw [hbad] at h1
        exact absurd (congrArg Prod.fst h1) (by simp)
    | ok ings =>
        have hok : g.add_recipe R T =
            (Except.ok (),
              { g with
                  collection := g.collection.map (add_recipe_item R ings),
                  recipes := g.recipes ++ [R] }) := by
          simp [Groceries.add_recipe, heq]
        rw [hok] at h1
        have hg1 : ({ g with
            collection := g.collection.map (add_recipe_item R ings),
            recipes := g.recipes ++ [R] } : Groceries) = g1 := congrArg Prod.snd h1
        rw [← hg1]
        intro x hx
        rcases List.mem_map.mp hx with ⟨y, hy, rfl⟩
        by_cases hc : y.name ∈ ings
        · simp [add_recipe_item, hc]
        · simpa [add_recipe_item, hc] using hI y hy
  · have hg2 : g2 = (g.delete_recipe R2).2 := (congrArg Prod.snd h2).symm
    rw [hg2]
    intro x hx
    rw [delete_recipe_collection_eq] at hx
    rcases List.mem_map.mp hx with ⟨y, hy, rfl⟩
    rw [delete_recipe_item_eq]
    by_cases hmem : R2 ∈ y.recipes
    · rw [if_pos hmem]
      by_cases he : (y.recipes.erase R2).isEmpty = true
      · have he2 : y.recipes.erase R2 = [] := by simpa using he
        simp [he, he2]
      · have he3 : (y.recipes.erase R2).isEmpty = false := by simpa using he
        have hne : y.recipes.erase R2 ≠ [] := by
          intro h0
          rw [h0] at he3
          simp at he3
        have hyne : y.recipes ≠ [] := by
          intro h0
          rw [h0] at hmem
          simp at hmem
        have hflag : y.is_recipe_ingredient = true := (hI y hy).mpr hyne
        simp [he3, hflag, hne]
    · rw [if_neg hmem]
      exact hI y hy

/-- Witness for C8 at `gEggs` with one addition and one deletion. -/
theorem claim8_invariant_I3_preserved_witness :
    invariantI3 (gEggs.add_recipe "r" "x").2 ∧
    invariantI3 (gEggs.delete_recipe "oatmeal cookies").2 :=
  claim8_invariant_I3_preserved gEggs (gEggs.add_recipe "r" "x").2
    (gEggs.delete_recipe "oatmeal cookies").2 "r" "x" "oatmeal cookies"
    (by decide) rfl rfl

/-- C9 counterexample: on a catalog whose recipe list already holds "r",
calling `add_recipe` twice leaves three occurrences, not the two the claim
asserts for every catalog. -/
theorem claim9_counterexample :
    ((Groceries.add_recipe
          { sections := [], collection := [], recipes := ["r"] } "r" "x").2.add_recipe
        "r" "x").2.recipes.count "r" = 3 ∧ (3 : Nat) ≠ 2 :=
  ⟨by decide, by decide⟩

/-- C9 (amended): `add_recipe` is not idempotent — calling it twice with the
same arguments adds exactly two further occurrences of the recipe name to the
recipe list, and exactly two further occurrences to the back-references of
every item whose name is among the parsed identifiers. -/
theorem claim9_add_recipe_twice (g : Groceries) (R T : String) (ings : List String)
    (h : Ingredients.from_input_string T = Except.ok ings) :
    ((g.add_recipe R T).2.add_recipe R T).2.recipes.count R = g.recipes.count R + 2 ∧
    ((g.add_recipe R T).2.add_recipe R T).2.collection
        = g.collection.map (fun x => add_recipe_item R ings (add_recipe_item R ings x)) ∧
    (∀ x ∈ g.collection, x.name ∈ ings →
      (add_recipe_item R ings (add_recipe_item R ings x)).recipes.count R
        = x.recipes.count R + 2) := by
  have e1 : (g.add_recipe R T).2 =
      { g with
          collection := g.collection.map (add_recipe_item R ings),
          recipes := g.recipes ++ [R] } := by
    simp [Groceries.add_recipe, h]
  have e2 : ((g.add_recipe R T).2.add_recipe R T).2 =
      { g with
          collection := (g.collection.map (add_recipe_item R ings)).map
            (add_recipe_item R ings),
          recipes := (g.recipes ++ [R]) ++ [R] } := by
    rw [e1]
    simp [Groceries.add_recipe, h]
  refine ⟨?_, ?_, ?_⟩
  · rw [e2]
    simp [List.count_append]
  · rw [e2]
    simp [List.map_map, Function.comp]
  · intro x _ hname
    simp [add_recipe_item, hname, List.count_append]

/-- Witness for C9 at `gX` with ingredient text "x". -/
theorem claim9_add_recipe_twice_witness :
    ((gX.add_recipe "r" "x").2.add_recipe "r" "x").2.recipes.count "r"
        = gX.recipes.count "r" + 2 ∧
    ((gX.add_recipe "r" "x").2.add_recipe "r" "x").2.collection
        = gX.collection.map
            (fun x => add_recipe_item "r" ["x"] (add_recipe_item "r" ["x"] x)) ∧
    (∀ x ∈ gX.collection, x.name ∈ ["x"] →
      (add_recipe_item "r" ["x"] (add_recipe_item "r" ["x"] x)).recipes.count "r"
        = x.recipes.count "r" + 2) :=
  claim9_add_recipe_twice gX "r" "x" ["x"] rfl

theorem count_flatMap_filter (secs : List String) (coll : List GroceriesItem)
    (x : GroceriesItem) :
    (secs.flatMap (fun sec => coll.filter (fun it => strContains it.«section» sec))).count x
      = (secs.filter (fun sec => strContains x.«section» sec)).length * coll.count x := by
  induction secs with
  | nil => simp
  | cons s ss ih =>
      rw [List.flatMap_cons, List.count_append, ih, List.filter_cons]
      by_cases hs : strContains x.«section» s = true
      · have hcf : (coll.filter (fun it => strContains it.«section» s)).count x
            = coll.count x :=
          @List.count_filter _ _ _ (fun it => strContains it.«section» s) x coll hs
        rw [if_pos hs, hcf, List.length_cons]
        ring
      · have hs2 : strContains x.«section» s = false := by simpa using hs
        rw [if_neg (by simp [hs2])]
        have hz : (coll.filter (fun it => strContains it.«section» s)).count x = 0 :=
          List.count_eq_zero.mpr (fun hmem => by
            rcases List.mem_filter.mp hmem with ⟨_, hpx⟩
            rw [hs2] at hpx
            exact Bool.false_ne_true hpx)
        rw [hz]
        ring

/-- C6: `items` walks the sections in listing order and, for each, emits the
items whose section string contains that section name, in the original
collection order (each group is a sublist of the collection); an item shows up
once per matching section — its multiplicity is the number of matching
sections times its multiplicity in the collection — and an item matching no
section is omitted. -/
theorem claim6_items_by_section (g : Groceries) :
    g.items = g.sections.flatMap
        (fun sec => g.collection.filter (fun x => strContains x.«section» sec)) ∧
    (∀ x : GroceriesItem,
      x ∈ g.items ↔ x ∈ g.collection ∧ ∃ sec ∈ g.sections, strContains x.«section» sec = true) ∧
    (∀ x : GroceriesItem,
      g.items.count x
        = (g.sections.filter (fun sec => strContains x.«section» sec)).length
            * g.collection.count x) ∧
    (∀ sec : String,
      (g.collection.filter (fun x => strContains x.«section» sec)).Sublist g.collection) := by
  refine ⟨rfl, ?_, ?_, fun sec => List.filter_sublist g.collection⟩
  · intro x
    unfold Groceries.items
    rw [List.mem_flatMap]
    constructor
    · rintro ⟨sec, hsec, hmemf⟩
      rcases List.mem_filter.mp hmemf with ⟨hcoll, hp⟩
      exact ⟨hcoll, sec, hsec, hp⟩
    · rintro ⟨hcoll, sec, hsec, hp⟩
      exact ⟨sec, hsec, List.mem_filter.mpr ⟨hcoll, hp⟩⟩
  · intro x
    exact count_flatMap_filter g.sections g.collection x

/-- Witness for C6 at `gEggs`: evaluation of the membership characterization
at a concrete item. -/
theorem claim6_items_by_section_witness :
    itemEggs ∈ gEggs.items ↔
      itemEggs ∈ gEggs.collection ∧
        ∃ sec ∈ gEggs.sections, strContains itemEggs.«section» sec = true :=
  (claim6_items_by_section gEggs).2.1 itemEggs
